/-
Verification of the SummifyX summarization core (generalUtils.py) against its
natural-language specification.

The Python source is shallowly embedded over `List Char`: text is a list of
characters, documents are records with a `page_content` field, the LLM is an
oracle function from prompt to completion-or-error, and the per-attempt chain
execution of the langchain library (which is not part of this repository) is
modelled from the specification.  Python floats in the token estimator are
modelled by exact rationals; `int()` truncation of a non-negative value is
`Int.floor`.
-/
import Mathlib

namespace SummifyX

/-- The whitespace characters recognised by Python's `str.split`, `str.strip`
and the regex class `\s` (ASCII range, which covers all inputs used here):
space, tab, newline, carriage return, vertical tab, form feed. -/
def isPySpace (c : Char) : Bool :=
  c = ' ' || c = '\t' || c = '\n' || c = '\r' || c = Char.ofNat 11 || c = Char.ofNat 12

/-- A loaded document: `{page_content, metadata}` as produced by the source
adapters (spec section 3). -/
structure Document where
  page_content : List Char
  metadata : List (List Char × List Char)
deriving DecidableEq

/-- Python `str.strip()`: drop leading whitespace, then drop trailing
whitespace (implemented by reversing). -/
def pyStrip (l : List Char) : List Char :=
  (((l.dropWhile isPySpace).reverse).dropWhile isPySpace).reverse

/-- Word-count scanner for Python `len(text.split())`: counts maximal runs of
non-whitespace characters.  The flag records whether the scanner is currently
inside a run. -/
def wcAux (inWord : Bool) : List Char → Nat
  | [] => 0
  | c :: rest =>
    if isPySpace c then wcAux false rest
    else (if inWord then 0 else 1) + wcAux true rest

/-- Python `len(text.split())` from `estimate_tokens` (generalUtils.py line 31). -/
def wordCount (l : List Char) : Nat := wcAux false l

/-- Source `estimate_tokens` (generalUtils.py lines 22-38):
`int((words * 1.3 + chars / 3.5) / 2)` with empty text mapped to 0.
Python float arithmetic is modelled by exact rationals; the truncation `int()`
of the non-negative value is `Int.floor`. -/
def estimate_tokens (text : List Char) : ℤ :=
  if text = [] then 0
  else ⌊(((wordCount text : ℚ) * 1.3 + (text.length : ℚ) / 3.5) / 2)⌋

/-- Closed form of the token estimate: the rational expression
`(w * 1.3 + c / 3.5) / 2` equals `(91 w + 20 c) / 140`, so its floor is the
natural-number division `(91 w + 20 c) / 140`. -/
theorem estimate_tokens_eq (text : List Char) :
    estimate_tokens text = ((91 * wordCount text + 20 * text.length) / 140 : ℕ) := by
  rcases eq_or_ne text [] with h | h
  · subst h
    simp [estimate_tokens, wordCount, wcAux]
  · rw [estimate_tokens, if_neg h]
    have hq : (((wordCount text : ℚ) * 1.3 + (text.length : ℚ) / 3.5) / 2)
        = ((91 * wordCount text + 20 * text.length : ℕ) : ℤ) / ((140 : ℕ) : ℚ) := by
      push_cast
      ring
    rw [hq]
    rw [Rat.floor_intCast_div_natCast]
    rw [Int.natCast_div]

/-- The word count never decreases when text is appended. -/
theorem wcAux_append_le (s : List Char) :
    ∀ (t : List Char) (b : Bool), wcAux b t ≤ wcAux b (t ++ s) := by
  intro t
  induction t with
  | nil => intro b; simp [wcAux]
  | cons c rest ih =>
    intro b
    by_cases hc : isPySpace c
    · simpa [wcAux, hc] using ih false
    · cases b <;> simpa [wcAux, hc] using ih true

/-! ### Content classifier (`detect_content_type`, generalUtils.py lines 75-107) -/

/-- Test that `pat` is a leading block of `l` (character-for-character). -/
def beginsWith : List Char → List Char → Bool
  | [], _ => true
  | _ :: _, [] => false
  | p :: ps, c :: cs => p == c && beginsWith ps cs

/-- Python's substring test `pat in l`: `pat` occurs contiguously in `l`. -/
def containsSeq (pat : List Char) : List Char → Bool
  | [] => beginsWith pat []
  | c :: rest => beginsWith pat (c :: rest) || containsSeq pat rest

/-- Number of positions of `l` at which `pat` begins.  This is the
"occurrences" reading of the spec sentence about the classifier; the code
itself only tests membership. -/
def occCount (pat : List Char) : List Char → Nat
  | [] => 0
  | c :: rest => (if beginsWith pat (c :: rest) then 1 else 0) + occCount pat rest

/-- Content-type label (spec section 3). -/
inductive ContentType where
  | technical
  | narrative
  | general
deriving DecidableEq

/-- Source `technical_indicators` (generalUtils.py lines 87-91). -/
def technical_indicators : List (List Char) :=
  ["algorithm".data, "function".data, "method".data, "class".data, "variable".data,
   "data structure".data, "implementation".data, "code".data, "programming".data,
   "software".data, "api".data, "database".data, "framework".data, "library".data,
   "python".data, "javascript".data, "java".data, "c++".data, "sql".data]

/-- Source `narrative_indicators` (generalUtils.py lines 94-97). -/
def narrative_indicators : List (List Char) :=
  ["story".data, "character".data, "plot".data, "narrative".data, "chapter".data,
   "scene".data, "dialogue".data, "protagonist".data, "antagonist".data,
   "setting".data, "theme".data]

/-- Python `sum(1 for indicator in indicators if indicator in text_lower)`: the number
of indicators that occur (at least once) as substrings. -/
def countPresent (inds : List (List Char)) (t : List Char) : Nat :=
  (inds.filter fun p => containsSeq p t).length

/-- Source `detect_content_type` (generalUtils.py lines 75-107). -/
def detect_content_type (docs : List Document) : ContentType :=
  if docs = [] then .general
  else
    let full_text := List.intercalate [' '] ((docs.take 3).map Document.page_content)
    let text_lower := full_text.map Char.toLower
    let technical_score := countPresent technical_indicators text_lower
    let narrative_score := countPresent narrative_indicators text_lower
    if technical_score > narrative_score ∧ technical_score > 3 then .technical
    else if narrative_score > technical_score ∧ narrative_score > 2 then .narrative
    else .general

/-! ### Prompt builder (`create_enhanced_prompts`, generalUtils.py lines 109-245) -/

/-- Stuff template for technical content (generalUtils.py lines 114-127). -/
def technical_stuff_template : List Char := "
        Create a comprehensive technical summary of the following content.
        
        Structure your summary as follows:
        1. **Title**: Create a clear, descriptive title
        2. **Overview**: Brief introduction explaining what this content covers
        3. **Key Concepts**: List and explain the main technical concepts, methods, or algorithms
        4. **Important Details**: Highlight critical technical details, specifications, or implementation notes
        5. **Conclusion**: Summarize the main takeaways and practical applications
        
        Focus on technical accuracy and include specific terminology.
        
        Content: {text}
        ".data

/-- Map template for technical content (generalUtils.py lines 129-137). -/
def technical_map_template : List Char := "
        Summarize this technical content section, focusing on:
        - Key technical concepts and methods
        - Important specifications or parameters
        - Critical implementation details
        - Any algorithms or processes described
        
        Content: {text}
        ".data

/-- Combine template for technical content (generalUtils.py lines 139-152). -/
def technical_combine_template : List Char := "
        Create a comprehensive technical summary from these section summaries.
        
        Structure as:
        **Title**: [Descriptive technical title]
        **Overview**: [What this covers technically]
        **Key Technical Concepts**: 
        • [List main concepts with brief explanations]
        **Implementation Details**: 
        • [Important technical specifications]
        **Conclusion**: [Main technical takeaways and applications]
        
        Section summaries: {text}
        ".data

/-- Stuff template for narrative content (generalUtils.py lines 155-168). -/
def narrative_stuff_template : List Char := "
        Create an engaging summary of this narrative content.
        
        Structure your summary as follows:
        1. **Title**: Create an engaging title that captures the essence
        2. **Introduction**: Set the context and main theme
        3. **Key Points**: Main events, characters, or story elements in chronological order
        4. **Important Themes**: Central themes, messages, or lessons
        5. **Conclusion**: How it concludes and the overall impact
        
        Maintain the narrative flow and emotional tone.
        
        Content: {text}
        ".data

/-- Map template for narrative content (generalUtils.py lines 170-178). -/
def narrative_map_template : List Char := "
        Summarize this narrative section, preserving:
        - Key events or developments
        - Important character interactions
        - Significant plot points or themes
        - Emotional tone and context
        
        Content: {text}
        ".data

/-- Combine template for narrative content (generalUtils.py lines 180-193). -/
def narrative_combine_template : List Char := "
        Create a cohesive narrative summary from these section summaries.
        
        Structure as:
        **Title**: [Engaging title]
        **Introduction**: [Context and setting]
        **Story Development**: 
        • [Key events in order]
        **Main Themes**: 
        • [Central themes and messages]
        **Conclusion**: [Resolution and impact]
        
        Section summaries: {text}
        ".data

/-- Stuff template for general content (generalUtils.py lines 196-213). -/
def general_stuff_template : List Char := "
        Create a comprehensive and well-structured summary of the following content.
        
        Format your response as:
        1. **Title**: Create a clear, descriptive title
        2. **Introduction**: Brief overview of the main topic and purpose
        3. **Key Points**: 
           • Main ideas and important information organized logically
           • Use bullet points for clarity
        4. **Important Details**: 
           • Significant facts, figures, or examples
           • Any actionable items or recommendations
        5. **Conclusion**: Summarize the main takeaways and significance
        
        Ensure the summary is informative, well-organized, and captures the essential information.
        
        Content: {text}
        ".data

/-- Map template for general content (generalUtils.py lines 215-224). -/
def general_map_template : List Char := "
        Create a concise summary of this content section, focusing on:
        - Main ideas and key information
        - Important facts or data points
        - Any conclusions or recommendations
        
        Keep it clear and informative.
        
        Content: {text}
        ".data

/-- Combine template for general content (generalUtils.py lines 226-239). -/
def general_combine_template : List Char := "
        Create a comprehensive final summary from these section summaries.
        
        Structure as:
        **Title**: [Clear descriptive title]
        **Introduction**: [Overview of the topic]
        **Key Information**: 
        • [Main points organized logically]
        **Important Details**: 
        • [Significant facts and insights]
        **Conclusion**: [Main takeaways and significance]
        
        Section summaries: {text}
        ".data
/-- Source `create_enhanced_prompts` (generalUtils.py lines 109-245): the
(stuff, map, combine) template triple for a content type. -/
def create_enhanced_prompts (ct : ContentType) : List Char × List Char × List Char :=
  match ct with
  | .technical => (technical_stuff_template, technical_map_template, technical_combine_template)
  | .narrative => (narrative_stuff_template, narrative_map_template, narrative_combine_template)
  | .general => (general_stuff_template, general_map_template, general_combine_template)

/-- Replace the first occurrence of `pat` in a text by `repl` (no occurrence:
the text is unchanged).  Used for `PromptTemplate` substitution. -/
def substFirst (pat repl : List Char) : List Char → List Char
  | [] => []
  | c :: rest =>
    if beginsWith pat (c :: rest) then repl ++ (c :: rest).drop pat.length
    else c :: substFirst pat repl rest

/-- Python `PromptTemplate(input_variables=['text'], template=tmpl).format(text=txt)`:
substitute the text for the single `{text}` placeholder. -/
def formatPrompt (tmpl txt : List Char) : List Char :=
  substFirst "{text}".data txt tmpl

/-! ### Text sanitizer (`clean_text_for_audio`, generalUtils.py lines 301-345)

Each `re.sub` call of the source is embedded as a dedicated scanner that
reproduces the Python regex semantics on the specific pattern: `.` does not
match a newline, `*?` takes the shortest match, replaced text is not rescanned,
and scanning resumes at the end of each match. -/

/-- Scanner for the closing `**` of `re.sub(r'\*\*(.*?)\*\*', ...)`: find the
earliest `**` with no newline before it, returning the inner text and the
remainder after the `**`. -/
def starSpan2 : List Char → Option (List Char × List Char)
  | [] => none
  | c :: rest =>
    if c = '\n' then none
    else if c = '*' then
      match rest with
      | c2 :: rest2 =>
        if c2 = '*' then some ([], rest2)
        else (starSpan2 rest).map fun p => (c :: p.1, p.2)
      | [] => none
    else (starSpan2 rest).map fun p => (c :: p.1, p.2)

theorem starSpan2_length : ∀ l p, starSpan2 l = some p → p.2.length < l.length := by
  intro l
  induction l with
  | nil => intro p h; simp [starSpan2] at h
  | cons c rest ih =>
    intro p h
    simp only [starSpan2] at h
    split_ifs at h with h1 h2
    · cases rest with
      | nil => simp at h
      | cons c2 rest2 =>
        by_cases h3 : c2 = '*'
        · simp only [h3, if_pos rfl] at h
          cases h
          simp
          omega
        · simp only [if_neg h3, Option.map_eq_some'] at h
          obtain ⟨q, hq, rfl⟩ := h
          have := ih q hq
          simp at this ⊢
          omega
    · simp only [Option.map_eq_some'] at h
      obtain ⟨q, hq, rfl⟩ := h
      have := ih q hq
      simp at this ⊢
      omega

/-- Regex `re.sub(r'\*\*(.*?)\*\*', r'\1', text)` (generalUtils.py line 309). -/
def subBold : List Char → List Char
  | [] => []
  | [c] => [c]
  | c1 :: c2 :: rest =>
    if c1 = '*' ∧ c2 = '*' then
      match h : starSpan2 rest with
      | some (inner, after) =>
        inner ++ subBold after
      | none => c1 :: subBold (c2 :: rest)
    else c1 :: subBold (c2 :: rest)
termination_by l => l.length
decreasing_by
  · have := starSpan2_length rest (inner, after) h
    simp at this ⊢
    omega
  · simp
  · simp

/-- Scanner for the closing delimiter of a single-character non-greedy span
(`\*(.*?)\*` or a backquoted code span): earliest `stop` with no newline
before it. -/
def charSpan (stop : Char) : List Char → Option (List Char × List Char)
  | [] => none
  | c :: rest =>
    if c = '\n' then none
    else if c = stop then some ([], rest)
    else (charSpan stop rest).map fun p => (c :: p.1, p.2)

theorem charSpan_length (stop : Char) :
    ∀ l p, charSpan stop l = some p → p.2.length < l.length := by
  intro l
  induction l with
  | nil => intro p h; simp [charSpan] at h
  | cons c rest ih =>
    intro p h
    simp only [charSpan] at h
    split_ifs at h with h1 h2
    · cases h
      simp
    · simp only [Option.map_eq_some'] at h
      obtain ⟨q, hq, rfl⟩ := h
      have := ih q hq
      simp at this ⊢
      omega

/-- One pass of `re.sub` for a single-character-delimited non-greedy span
(used for italic `\*(.*?)\*` and code  with a backquote delimiter): on the
delimiter, keep the inner text if a closing delimiter exists on the same line,
otherwise advance one character. -/
def subSpan (delim : Char) : List Char → List Char
  | [] => []
  | c :: rest =>
    if c = delim then
      match h : charSpan delim rest with
      | some (inner, after) => inner ++ subSpan delim after
      | none => c :: subSpan delim rest
    else c :: subSpan delim rest
termination_by l => l.length
decreasing_by
  · have := charSpan_length delim rest (inner, after) h
    simp at this ⊢
    omega
  · simp
  · simp

/-- Regex `re.sub(r'\*(.*?)\*', r'\1', text)` (generalUtils.py line 310). -/
def subItalic (l : List Char) : List Char := subSpan '*' l

/-- Regex `re.sub(r'`(.*?)`', r'\1', text)` (generalUtils.py line 312); the
delimiter is the backquote, written by code point. -/
def subCode (l : List Char) : List Char := subSpan (Char.ofNat 96) l

/-- Drop up to `n` leading `'#'` characters. -/
def dropHashes : Nat → List Char → List Char
  | _, [] => []
  | 0, l => l
  | n + 1, c :: rest => if c = '#' then dropHashes n rest else c :: rest

theorem dropHashes_length : ∀ n l, (dropHashes n l).length ≤ l.length := by
  intro n
  induction n with
  | zero => intro l; cases l <;> simp [dropHashes]
  | succ n ih =>
    intro l
    cases l with
    | nil => simp [dropHashes]
    | cons c rest =>
      rw [dropHashes]
      split_ifs
      · exact (ih rest).trans (by simp)
      · simp

theorem dropWhile_length_le (p : Char → Bool) (l : List Char) :
    (l.dropWhile p).length ≤ l.length := by
  induction l with
  | nil => simp
  | cons c rest ih =>
    rw [List.dropWhile_cons]
    split_ifs
    · exact ih.trans (by simp)
    · simp

/-- Regex `re.sub(r'#{1,6}\s*(.*)', r'\1', text)` (generalUtils.py line 311): a run
of one to six `#`, then greedy whitespace (which may cross newlines), then the
rest of the current line, replaced by that rest-of-line. -/
def subHeaders : List Char → List Char
  | [] => []
  | c :: rest =>
    if c = '#' then
      let afterWs := (dropHashes 5 rest).dropWhile isPySpace
      let line := afterWs.takeWhile fun c0 => c0 ≠ '\n'
      let after := afterWs.dropWhile fun c0 => c0 ≠ '\n'
      line ++ subHeaders after
    else c :: subHeaders rest
termination_by l => l.length
decreasing_by
  · calc ((dropHashes 5 rest).dropWhile isPySpace |>.dropWhile fun c0 => c0 ≠ '\n').length
        ≤ ((dropHashes 5 rest).dropWhile isPySpace).length := dropWhile_length_le _ _
      _ ≤ (dropHashes 5 rest).length := dropWhile_length_le _ _
      _ ≤ rest.length := dropHashes_length 5 rest
      _ < (c :: rest).length := by simp
  · simp

/-- Scanner for the URL part `.*?\)` of the link regex: earliest `')'` with no
newline before it, returning the remainder after it. -/
def parenEnd : List Char → Option (List Char)
  | [] => none
  | c :: rest =>
    if c = '\n' then none
    else if c = ')' then some rest
    else parenEnd rest

theorem parenEnd_length : ∀ l r, parenEnd l = some r → r.length < l.length := by
  intro l
  induction l with
  | nil => intro r h; simp [parenEnd] at h
  | cons c rest ih =>
    intro r h
    simp only [parenEnd] at h
    split_ifs at h with h1 h2
    · cases h
      simp
    · have := ih r h
      simp at this ⊢
      omega

/-- Backtracking search for `](` followed by a `)`-terminated URL, for
`re.sub(r'\[(.*?)\]\(.*?\)', r'\1', text)`: the label is extended (never across
a newline) to the earliest `](` whose following text contains a `')'` on the
same line; returns the label and the remainder after the closing paren. -/
def linkSpan : List Char → Option (List Char × List Char)
  | [] => none
  | c :: rest =>
    if c = '\n' then none
    else if h : c = ']' ∧ rest.head? = some '(' then
      match parenEnd rest.tail with
      | some after => some ([], after)
      | none => (linkSpan rest).map fun p => (c :: p.1, p.2)
    else (linkSpan rest).map fun p => (c :: p.1, p.2)

theorem linkSpan_length : ∀ l p, linkSpan l = some p → p.2.length < l.length := by
  intro l
  induction l with
  | nil => intro p h; simp [linkSpan] at h
  | cons c rest ih =>
    intro p h
    simp only [linkSpan] at h
    split_ifs at h with h1 h2
    · cases hpe : parenEnd rest.tail with
      | some after =>
        rw [hpe] at h
        cases h
        have := parenEnd_length rest.tail after hpe
        have : rest.tail.length ≤ rest.length := by
          cases rest <;> simp [List.tail]
        simp
        omega
      | none =>
        rw [hpe] at h
        simp only [Option.map_eq_some'] at h
        obtain ⟨q, hq, rfl⟩ := h
        have := ih q hq
        simp at this ⊢
        omega
    · simp only [Option.map_eq_some'] at h
      obtain ⟨q, hq, rfl⟩ := h
      have := ih q hq
      simp at this ⊢
      omega

/-- Regex `re.sub(r'\[(.*?)\]\(.*?\)', r'\1', text)` (generalUtils.py line 313). -/
def subLinks : List Char → List Char
  | [] => []
  | c :: rest =>
    if c = '[' then
      match h : linkSpan rest with
      | some (label, after) => label ++ subLinks after
      | none => c :: subLinks rest
    else c :: subLinks rest
termination_by l => l.length
decreasing_by
  · have := linkSpan_length rest (label, after) h
    simp at this ⊢
    omega
  · simp
  · simp

/-- The character class of `re.sub(r'[#*_>`\-•]', '', text)`
(generalUtils.py line 316); the backquote is written by code point. -/
def strayMarkup (c : Char) : Bool :=
  c = '#' || c = '*' || c = '_' || c = '>' || c = Char.ofNat 96 || c = '-' || c = '•'

/-- Regex `re.sub(r'[#*_>`\-•]', '', text)` (generalUtils.py line 316). -/
def removeStray (l : List Char) : List Char := l.filter fun c => !strayMarkup c

/-- Attempt to match `\s*\d+\.\s*` at a `^` anchor (for the MULTILINE numbered
list regex, generalUtils.py line 317): greedy whitespace (may cross newlines),
one or more digits, a literal dot, greedy trailing whitespace.  Returns the
remainder and whether the last consumed character was a newline (in which case
the position after the match is again a `^` anchor). -/
def numListMatch (l : List Char) : Option (List Char × Bool) :=
  let l1 := l.dropWhile isPySpace
  let ds := l1.takeWhile Char.isDigit
  if ds = [] then none
  else
    match l1.dropWhile Char.isDigit with
    | '.' :: l3 =>
      let ws2 := l3.takeWhile isPySpace
      some (l3.dropWhile isPySpace, ws2.getLast? == some '\n')
    | _ => none

theorem takeWhile_length_le (p : Char → Bool) (l : List Char) :
    (l.takeWhile p).length ≤ l.length := by
  induction l with
  | nil => simp
  | cons c rest ih =>
    rw [List.takeWhile_cons]
    split_ifs
    · simpa using ih
    · simp

theorem numListMatch_length :
    ∀ l p, numListMatch l = some p → p.1.length < l.length := by
  intro l p h
  simp only [numListMatch] at h
  split_ifs at h with h1
  split at h
  next l3 heq =>
    cases h
    have ha : (List.dropWhile isPySpace l3).length ≤ l3.length := dropWhile_length_le _ _
    have hb := dropWhile_length_le Char.isDigit (List.dropWhile isPySpace l)
    have hc := dropWhile_length_le isPySpace l
    rw [heq] at hb
    simp at hb ⊢
    omega
  next =>
    simp at h

/-- Scanner for `re.sub(r'^\s*[\d]+\.\s*', '', text, flags=re.MULTILINE)`
(generalUtils.py line 317).  The flag is true at a `^` anchor (string start or
just after a newline); elsewhere characters are copied until the next newline
re-enables the anchor. -/
def subNumScan : (anchor : Bool) → List Char → List Char
  | true, l =>
    match h : numListMatch l with
    | some (l4, isNl) => subNumScan isNl l4
    | none => subNumScan false l
  | false, [] => []
  | false, c :: rest =>
    if c = '\n' then c :: subNumScan true rest else c :: subNumScan false rest
termination_by anchor l => 2 * l.length + (if anchor then 1 else 0)
decreasing_by
  all_goals first
    | (skip
       have hlen := numListMatch_length l (l4, isNl) h
       simp at hlen
       cases isNl <;> simp <;> omega)
    | (simp <;> omega)

/-- Regex `re.sub(r'^\s*[\d]+\.\s*', '', text, flags=re.MULTILINE)`
(generalUtils.py line 317). -/
def subNumbered (l : List Char) : List Char := subNumScan true l

/-- Attempt to match `\s*[•\-]\s*` at a `^` anchor (for the MULTILINE bullet
regex, generalUtils.py line 318). -/
def bulListMatch (l : List Char) : Option (List Char × Bool) :=
  match l.dropWhile isPySpace with
  | c :: l3 =>
    if c = '•' ∨ c = '-' then
      some (l3.dropWhile isPySpace, (l3.takeWhile isPySpace).getLast? == some '\n')
    else none
  | [] => none

theorem bulListMatch_length :
    ∀ l p, bulListMatch l = some p → p.1.length < l.length := by
  intro l p h
  rw [bulListMatch] at h
  split at h
  next c l3 heq =>
    split_ifs at h
    cases h
    have ha : (List.dropWhile isPySpace l3).length ≤ l3.length := dropWhile_length_le _ _
    have hb := dropWhile_length_le isPySpace l
    rw [heq] at hb
    simp at hb ⊢
    omega
  next =>
    simp at h

/-- Scanner for the MULTILINE bullet regex, in the style of `subNumScan`. -/
def subBulScan : (anchor : Bool) → List Char → List Char
  | true, l =>
    match h : bulListMatch l with
    | some (l4, isNl) => subBulScan isNl l4
    | none => subBulScan false l
  | false, [] => []
  | false, c :: rest =>
    if c = '\n' then c :: subBulScan true rest else c :: subBulScan false rest
termination_by anchor l => 2 * l.length + (if anchor then 1 else 0)
decreasing_by
  all_goals first
    | (skip
       have hlen := bulListMatch_length l (l4, isNl) h
       simp at hlen
       cases isNl <;> simp <;> omega)
    | (simp <;> omega)

/-- Regex `re.sub(r'^\s*[•\-]\s*', '', text, flags=re.MULTILINE)`
(generalUtils.py line 318). -/
def subBullets (l : List Char) : List Char := subBulScan true l

/-- Regex `re.sub(r'(?<=[^\.\!\?])\n', '. ', text)` (generalUtils.py line 321): a
newline preceded by a character other than `.`, `!`, `?` becomes `. `.  The
lookbehind always refers to the original text, so the scanner carries the
previous original character. -/
def addPeriodsGo : Option Char → List Char → List Char
  | _, [] => []
  | prev, c :: rest =>
    if c = '\n' then
      match prev with
      | some p =>
        if p = '.' ∨ p = '!' ∨ p = '?' then c :: addPeriodsGo (some '\n') rest
        else '.' :: ' ' :: addPeriodsGo (some '\n') rest
      | none => c :: addPeriodsGo (some '\n') rest
    else c :: addPeriodsGo (some c) rest

/-- Regex `re.sub(r'(?<=[^\.\!\?])\n', '. ', text)` (generalUtils.py line 321). -/
def addPeriods (l : List Char) : List Char := addPeriodsGo none l

/-- Regex `re.sub(r'\n+', ' ', text)` (generalUtils.py line 322): each maximal run
of newlines becomes a single space. -/
def flattenNl : List Char → List Char
  | [] => []
  | c :: rest =>
    if c = '\n' then ' ' :: flattenNl (rest.dropWhile fun c0 => c0 = '\n')
    else c :: flattenNl rest
termination_by l => l.length
decreasing_by
  · have := dropWhile_length_le (fun c0 => c0 = '\n') rest
    simp at this ⊢
    omega
  · simp

/-- Regex `re.sub(r'\s{2,}', ' ', text)` (generalUtils.py line 323): each maximal
whitespace run of length at least two becomes a single space (a lone
whitespace character is kept as it is). -/
def collapseWs : List Char → List Char
  | [] => []
  | [c] => [c]
  | c1 :: c2 :: rest =>
    if isPySpace c1 ∧ isPySpace c2 then ' ' :: collapseWs (rest.dropWhile isPySpace)
    else c1 :: collapseWs (c2 :: rest)
termination_by l => l.length
decreasing_by
  · have := dropWhile_length_le isPySpace rest
    simp at this ⊢
    omega
  · simp

/-- Python regex `\w` (ASCII range): letters, digits, underscore. -/
def wordChar (c : Char) : Bool := c.isAlpha || c.isDigit || c = '_'

/-- Case-insensitive match of a pattern against the front of a text; returns
the remainder after the matched characters. -/
def matchCI : List Char → List Char → Option (List Char)
  | [], l => some l
  | _ :: _, [] => none
  | p :: ps, c :: cs => if c.toLower = p.toLower then matchCI ps cs else none

theorem matchCI_length :
    ∀ pat l r, matchCI pat l = some r → r.length + pat.length = l.length := by
  intro pat
  induction pat with
  | nil =>
    intro l r h
    simp only [matchCI] at h
    cases h
    simp
  | cons p ps ih =>
    intro l r h
    cases l with
    | nil => simp [matchCI] at h
    | cons c cs =>
      simp only [matchCI] at h
      split_ifs at h
      have := ih cs r h
      simp
      omega

/-- One pass of `re.sub(r'\b' + abbrev + r'\b', repl, text, flags=re.IGNORECASE)`
(generalUtils.py line 343) for the non-empty pattern `p0 :: ps`.  The Boolean
records whether the previous original character was a word character (in which
case no word boundary exists at the current position).  All abbreviation
characters are letters, so after a replaced match the previous character is a
word character. -/
def subWordGo (p0 : Char) (ps : List Char) (repl : List Char) :
    Bool → List Char → List Char
  | _, [] => []
  | prevWord, c :: rest =>
    if prevWord then c :: subWordGo p0 ps repl (wordChar c) rest
    else
      match h : matchCI (p0 :: ps) (c :: rest) with
      | some r =>
        if r.head?.all (fun c2 => !wordChar c2) then repl ++ subWordGo p0 ps repl true r
        else c :: subWordGo p0 ps repl (wordChar c) rest
      | none => c :: subWordGo p0 ps repl (wordChar c) rest
termination_by b l => l.length
decreasing_by
  all_goals first
    | (skip
       have hlen := matchCI_length (p0 :: ps) (c :: rest) r h
       simp at hlen ⊢
       omega)
    | (simp <;> omega)

/-- Regex `re.sub(r'\b' + abbrev + r'\b', replacement, text, flags=re.IGNORECASE)`
(generalUtils.py line 343). -/
def subAbbrev (pat repl l : List Char) : List Char :=
  match pat with
  | [] => l
  | p0 :: ps => subWordGo p0 ps repl false l

/-- The `abbreviations` table (generalUtils.py lines 326-340), in insertion
order. -/
def abbreviations : List (List Char × List Char) :=
  [("API".data, "A P I".data), ("URL".data, "U R L".data), ("HTML".data, "H T M L".data),
   ("CSS".data, "C S S".data), ("JS".data, "JavaScript".data), ("AI".data, "A I".data),
   ("ML".data, "Machine Learning".data), ("NLP".data, "Natural Language Processing".data),
   ("PDF".data, "P D F".data), ("CEO".data, "C E O".data), ("CTO".data, "C T O".data),
   ("USA".data, "United States".data), ("UK".data, "United Kingdom".data)]

/-- The abbreviation loop (generalUtils.py lines 342-343). -/
def applyAbbreviations (l : List Char) : List Char :=
  abbreviations.foldl (fun acc pr => subAbbrev pr.1 pr.2 acc) l

/-- Source `clean_text_for_audio` (generalUtils.py lines 301-345): the full rewrite
pipeline, in source order, ending with `strip()`. -/
def clean_text_for_audio (text : List Char) : List Char :=
  if text = [] then []
  else
    pyStrip (applyAbbreviations (collapseWs (flattenNl (addPeriods
      (subBullets (subNumbered (removeStray (subLinks (subCode
        (subHeaders (subItalic (subBold text))))))))))))

/-- The structural markers of `validate_summary_quality`
(generalUtils.py line 422). -/
def structure_markers : List (List Char) :=
  ["title".data, "introduction".data, "conclusion".data, "key".data, "main".data]

/-- Source `validate_summary_quality` (generalUtils.py lines 406-430).  The
`isinstance` check cannot fail in this typed embedding. -/
def validate_summary_quality (summary : List Char) : Bool × List Char :=
  if summary = [] then (false, "Summary is empty or invalid".data)
  else
    let s := pyStrip summary
    if s.length < 100 then (false, "Summary is too short".data)
    else if s.length > 10000 then (false, "Summary is too long".data)
    else if ¬ (structure_markers.any fun m => containsSeq m (s.map Char.toLower)) then
      (false, "Summary lacks proper structure".data)
    else if wordCount s < 50 then (false, "Summary has too few words".data)
    else (true, "Summary quality is acceptable".data)

/-- The truncation notice of `generate_audio` (generalUtils.py line 360). -/
def continuation_notice : List Char := "... Summary continues in text format.".data

/-- The narration text computed inside `generate_audio`
(generalUtils.py lines 356-360): sanitize, then truncate to 4800 characters
plus the continuation notice whenever the cleaned text exceeds 5000
characters.  The guard for empty input (line 352) precedes this computation
and the actual speech synthesis (external `gTTS`) consumes its result. -/
def generate_audio_text (summary_text : List Char) : List Char :=
  let cleaned_text := clean_text_for_audio summary_text
  if cleaned_text.length > 5000 then cleaned_text.take 4800 ++ continuation_notice
  else cleaned_text

/-! ### Summarization orchestrator (`summarize_chain`, generalUtils.py lines 247-299)

The LLM handle is an oracle `List Char → Except (List Char) (List Char)` from
a fully formatted prompt to a completion or an exception message; retries may
see different oracle behaviour, so `summarize_chain` receives one oracle per
attempt index.  The langchain `load_summarize_chain(...).run(docs)` execution
is not part of this repository and is modelled from the spec (sections 4.5 and
appendix): the stuff chain formats the stuff prompt with the concatenated
document contents and invokes the LLM once; the map-reduce chain invokes the
LLM once per chunk with the map prompt and once more with the combine prompt
over the concatenated chunk summaries.  `chunk_documents` delegates to the
langchain text splitter, so it is kept abstract: every theorem quantifies over
the chunking function. -/

/-- The error kinds `summarize_chain` can raise. -/
inductive SummError where
  | valueError (msg : List Char)
  | runtimeError (msg : List Char)
deriving DecidableEq

/-- Modelled from the spec: documents are joined by a blank line when they are
stuffed into a single prompt, and chunk summaries are joined the same way
before the combine call ("the concatenated chunk summaries"). -/
def joinDocs (parts : List (List Char)) : List Char :=
  List.intercalate "\n\n".data parts

/-- The validation gate inside the retry loop (generalUtils.py lines 288-292):
an empty result or a trimmed length below 50 raises
`ValueError("Generated summary is too short")`, which the `except` turns into
a failed attempt; otherwise the trimmed result is returned. -/
def validateResult (r : Except (List Char) (List Char)) : Except (List Char) (List Char) :=
  match r with
  | .error e => .error e
  | .ok result =>
    if result = [] ∨ (pyStrip result).length < 50 then
      .error "Generated summary is too short".data
    else .ok (pyStrip result)

/-- Modelled from the spec: the map phase of the map-reduce chain.  Each chunk
is summarized by one LLM call on the map prompt formatted with the chunk
content, in order; the first failing call aborts the phase.  Returns the
outcome together with the prompts issued. -/
def runMaps (call : List Char → Except (List Char) (List Char)) (mapP : List Char) :
    List Document → Except (List Char) (List (List Char)) × List (List Char)
  | [] => (.ok [], [])
  | d :: ds =>
    let prompt := formatPrompt mapP d.page_content
    match call prompt with
    | .error e => (.error e, [prompt])
    | .ok s =>
      match runMaps call mapP ds with
      | (res, issued) => (res.map fun outs => s :: outs, prompt :: issued)

/-- One attempt of the retry loop (generalUtils.py lines 272-292): choose the
strategy from the pre-computed token estimate, run the (spec-modelled) chain,
then apply the validation gate.  Returns the attempt outcome and the prompts
issued to the LLM. -/
def attemptFn (chunker : List Document → List Document) (docs2 : List Document)
    (call : List Char → Except (List Char) (List Char)) :
    Except (List Char) (List Char) × List (List Char) :=
  let ct := detect_content_type docs2
  let total_tokens := estimate_tokens (List.intercalate [' '] (docs2.map Document.page_content))
  let prompts := create_enhanced_prompts ct
  if total_tokens < 6000 then
    let prompt := formatPrompt prompts.1 (joinDocs (docs2.map Document.page_content))
    (validateResult (call prompt), [prompt])
  else
    let chunks := chunker docs2
    match runMaps call prompts.2.1 chunks with
    | (.error e, issued) => (.error e, issued)
    | (.ok summaries, issued) =>
      let cprompt := formatPrompt prompts.2.2 (joinDocs summaries)
      (validateResult (call cprompt), issued ++ [cprompt])

/-- Python `f"Failed to generate summary after {max_retries} attempts: {e}"`
(generalUtils.py line 297). -/
def failWrap (max_retries : ℤ) (e : List Char) : List Char :=
  "Failed to generate summary after ".data ++ (toString max_retries).data
    ++ " attempts: ".data ++ e

/-- The fall-through return value of `summarize_chain`
(generalUtils.py line 299), reached only when the retry loop body never runs. -/
def fallbackText : List Char := "Summary generation failed after multiple attempts.".data

/-- The retry loop `for attempt in range(max_retries)`
(generalUtils.py lines 271-299).  `fuel` counts the remaining iterations of
`range(max_retries)` (so the loop is structural); the literal guard
`attempt < max_retries` and the literal test `attempt == max_retries - 1` are
kept.  Returns the result, the number of attempts executed, and all prompts
issued. -/
def retryAux (run : Nat → Except (List Char) (List Char) × List (List Char))
    (max_retries : ℤ) :
    Nat → Nat → Except SummError (List Char) × Nat × List (List Char)
  | 0, attempt => (.ok fallbackText, attempt, [])
  | fuel + 1, attempt =>
    if (attempt : ℤ) < max_retries then
      let out := run attempt
      match out.1 with
      | .ok s => (.ok s, attempt + 1, out.2)
      | .error e =>
        if (attempt : ℤ) = max_retries - 1 then
          (.error (.runtimeError (failWrap max_retries e)), attempt + 1, out.2)
        else
          let rec2 := retryAux run max_retries fuel (attempt + 1)
          (rec2.1, rec2.2.1, out.2 ++ rec2.2.2)
    else (.ok fallbackText, attempt, [])

/-- Source `summarize_chain` (generalUtils.py lines 247-299).  `max_retries` is a
Python integer, so it is modelled as `ℤ` (`range(max_retries)` is empty for a
non-positive value).  Returns the result (`.error` for a raised exception),
the number of executed attempts, and the prompts issued to the LLM. -/
def summarize_chain (chunker : List Document → List Document) (docs : List Document)
    (llm : Nat → List Char → Except (List Char) (List Char)) (max_retries : ℤ) :
    Except SummError (List Char) × Nat × List (List Char) :=
  if docs = [] then
    (.error (.valueError "No documents provided for summarization".data), 0, [])
  else
    let docs2 := docs.filter fun d => pyStrip d.page_content ≠ []
    if docs2 = [] then
      (.error (.valueError "All documents are empty".data), 0, [])
    else
      retryAux (fun attempt => attemptFn chunker docs2 (llm attempt))
        max_retries max_retries.toNat 0

/-! ### Properties of `pyStrip` -/

theorem pyStrip_eq_rdropWhile (l : List Char) :
    pyStrip l = List.rdropWhile isPySpace (List.dropWhile isPySpace l) := rfl

theorem head?_dropWhile_not (p : Char → Bool) :
    ∀ l c, (List.dropWhile p l).head? = some c → p c = false := by
  intro l
  induction l with
  | nil => intro c h; simp at h
  | cons a rest ih =>
    intro c h
    rw [List.dropWhile_cons] at h
    split_ifs at h with ha
    · exact ih c h
    · simp at h
      subst h
      simpa using ha

theorem rdropWhile_append (p : Char → Bool) (l : List Char) :
    ∃ t, l = List.rdropWhile p l ++ t := by
  obtain ⟨t, ht⟩ :=
    (List.dropWhile_suffix p : List.dropWhile p l.reverse <:+ l.reverse)
  refine ⟨t.reverse, ?_⟩
  rw [List.rdropWhile]
  calc l = l.reverse.reverse := by rw [List.reverse_reverse]
    _ = (t ++ l.reverse.dropWhile p).reverse := by rw [ht]
    _ = (l.reverse.dropWhile p).reverse ++ t.reverse := by rw [List.reverse_append]

theorem head?_rdropWhile (p : Char → Bool) (l : List Char) (c : Char)
    (h : (List.rdropWhile p l).head? = some c) : l.head? = some c := by
  obtain ⟨t, ht⟩ := rdropWhile_append p l
  rcases hr : List.rdropWhile p l with _ | ⟨a, z⟩
  · rw [hr] at h; simp at h
  · rw [hr] at h ht
    simp at h
    subst h
    rw [ht]
    simp

theorem getLast?_rdropWhile_not (p : Char → Bool) (l : List Char) (c : Char)
    (h : (List.rdropWhile p l).getLast? = some c) : p c = false := by
  rw [List.rdropWhile, List.getLast?_reverse] at h
  exact head?_dropWhile_not p l.reverse c h

theorem pyStrip_head_not_space (l : List Char) (c : Char)
    (h : (pyStrip l).head? = some c) : isPySpace c = false := by
  rw [pyStrip_eq_rdropWhile] at h
  exact head?_dropWhile_not isPySpace l c (head?_rdropWhile _ _ _ h)

theorem pyStrip_last_not_space (l : List Char) (c : Char)
    (h : (pyStrip l).getLast? = some c) : isPySpace c = false := by
  rw [pyStrip_eq_rdropWhile] at h
  exact getLast?_rdropWhile_not isPySpace _ c h

theorem dropWhile_eq_self_of_head (p : Char → Bool) (l : List Char)
    (h : ∀ c, l.head? = some c → p c = false) : List.dropWhile p l = l := by
  cases l with
  | nil => simp
  | cons a rest =>
    rw [List.dropWhile_cons, if_neg]
    simp [h a rfl]

theorem rdropWhile_eq_self_of_last (p : Char → Bool) (l : List Char)
    (h : ∀ c, l.getLast? = some c → p c = false) : List.rdropWhile p l = l := by
  rw [List.rdropWhile]
  rw [dropWhile_eq_self_of_head p l.reverse]
  · rw [List.reverse_reverse]
  · intro c hc
    rw [List.head?_reverse] at hc
    exact h c hc

/-- Python `strip()` of already-stripped text is the identity. -/
theorem pyStrip_fix (l : List Char)
    (hh : ∀ c, l.head? = some c → isPySpace c = false)
    (hl : ∀ c, l.getLast? = some c → isPySpace c = false) : pyStrip l = l := by
  rw [pyStrip_eq_rdropWhile, dropWhile_eq_self_of_head isPySpace l hh,
    rdropWhile_eq_self_of_last isPySpace l hl]

/-- Python `strip()` is idempotent. -/
theorem pyStrip_idem (l : List Char) : pyStrip (pyStrip l) = pyStrip l := by
  refine pyStrip_fix _ ?_ ?_
  · exact pyStrip_head_not_space l
  · exact pyStrip_last_not_space l

/-! ### Properties of the retry loop -/

/-- The retry loop never produces a `ValueError`-kind error: its only raise is
the `RuntimeError` at the last attempt. -/
theorem retryAux_no_valueError
    (run : Nat → Except (List Char) (List Char) × List (List Char)) (mr : ℤ) :
    ∀ fuel attempt m,
      (retryAux run mr fuel attempt).1 ≠ .error (.valueError m) := by
  intro fuel
  induction fuel with
  | zero => intro a m; simp [retryAux]
  | succ fuel ih =>
    intro a m
    rw [retryAux]
    by_cases h1 : (a : ℤ) < mr
    · rw [if_pos h1]
      cases hres : (run a).1 with
      | ok s => simp [hres]
      | error e =>
        simp only [hres]
        by_cases h2 : (a : ℤ) = mr - 1
        · simp [h2]
        · rw [if_neg h2]
          simpa using ih (a + 1) m
    · simp [h1]

/-- Every successful attempt outcome passed the validation gate: it is a
trimmed string of length at least 50. -/
theorem attemptFn_ok (chunker : List Document → List Document)
    (docs2 : List Document) (call : List Char → Except (List Char) (List Char))
    (s : List Char) (h : (attemptFn chunker docs2 call).1 = .ok s) :
    pyStrip s = s ∧ 50 ≤ s.length := by
  have hval : ∀ r, validateResult r = .ok s → pyStrip s = s ∧ 50 ≤ s.length := by
    intro r hr
    rcases r with e | result
    · simp [validateResult] at hr
    · rw [validateResult] at hr
      split_ifs at hr with hcond
      simp at hr
      subst hr
      refine ⟨pyStrip_idem result, ?_⟩
      push_neg at hcond
      exact hcond.2
  rw [attemptFn] at h
  split_ifs at h with h1
  · exact hval _ h
  · simp only at h
    split at h
    next e issued heq => simp at h
    next summaries issued heq => exact hval _ h

/-- Shape of the retry loop when at least one iteration remains: either some
attempt succeeded and its validated value is returned, or every attempt
failed and the loop raises the wrapped `RuntimeError` at attempt
`max_retries - 1`, having executed exactly `max_retries` attempts. -/
theorem retryAux_contract
    (run : Nat → Except (List Char) (List Char) × List (List Char)) (mr : ℤ) :
    ∀ (fuel attempt : ℕ), (attempt : ℤ) + fuel = mr → 1 ≤ fuel →
      (∃ a s, (run a).1 = .ok s ∧ (retryAux run mr fuel attempt).1 = .ok s) ∨
      (∃ e, (run (mr.toNat - 1)).1 = .error e ∧
        (retryAux run mr fuel attempt).1 = .error (.runtimeError (failWrap mr e)) ∧
        (retryAux run mr fuel attempt).2.1 = mr.toNat) := by
  intro fuel
  induction fuel with
  | zero => intro a hsum hfuel; omega
  | succ fuel ih =>
    intro a hsum hfuel
    have hlt : (a : ℤ) < mr := by omega
    have htoNat : mr.toNat = a + fuel + 1 := by omega
    rw [retryAux, if_pos hlt]
    cases hres : (run a).1 with
    | ok s =>
      left
      exact ⟨a, s, hres, by simp [hres]⟩
    | error e =>
      by_cases h2 : (a : ℤ) = mr - 1
      · right
        have ha : mr.toNat - 1 = a := by omega
        rw [ha]
        refine ⟨e, hres, ?_, ?_⟩
        · simp [hres, h2]
        · simp [hres, h2]
          omega
      · have hfuel1 : 1 ≤ fuel := by omega
        rcases ih (a + 1) (by push_cast; omega) hfuel1 with ⟨b, s, hb, hr⟩ | ⟨e2, he2, hr, hn⟩
        · left
          refine ⟨b, s, hb, ?_⟩
          simpa [hres, h2] using hr
        · right
          refine ⟨e2, he2, ?_, ?_⟩
          · simpa [hres, h2] using hr
          · simpa [hres, h2] using hn

/-- The document list after the blank-document filter
(generalUtils.py line 255). -/
def filteredDocs (docs : List Document) : List Document :=
  docs.filter fun d => pyStrip d.page_content ≠ []

theorem summarize_chain_run (chunker : List Document → List Document)
    (docs : List Document) (llm : Nat → List Char → Except (List Char) (List Char))
    (mr : ℤ) (hf : filteredDocs docs ≠ []) :
    summarize_chain chunker docs llm mr =
      retryAux (fun attempt => attemptFn chunker (filteredDocs docs) (llm attempt))
        mr mr.toNat 0 := by
  have hd : docs ≠ [] := by
    intro h
    exact hf (by simp [filteredDocs, h])
  have hf2 : ¬ (docs.filter (fun d => pyStrip d.page_content ≠ []) = []) := hf
  simp only [summarize_chain, if_neg hd, if_neg hf2]
  rfl

/-- The single-pass branch of an attempt: below the token threshold, exactly
one prompt is issued, the stuff prompt over the joined document contents. -/
theorem attemptFn_stuff (chunker : List Document → List Document)
    (docs2 : List Document) (call : List Char → Except (List Char) (List Char))
    (hlt : estimate_tokens (List.intercalate [' '] (docs2.map Document.page_content)) < 6000) :
    attemptFn chunker docs2 call =
      (validateResult (call (formatPrompt (create_enhanced_prompts (detect_content_type docs2)).1
          (joinDocs (docs2.map Document.page_content)))),
        [formatPrompt (create_enhanced_prompts (detect_content_type docs2)).1
          (joinDocs (docs2.map Document.page_content))]) := by
  simp only [attemptFn]
  rw [if_pos hlt]

/-- The map phase with a never-failing oracle: one map call per chunk, in
order. -/
theorem runMaps_ok (call : List Char → Except (List Char) (List Char))
    (mapP : List Char) (hok : ∀ p, ∃ s, call p = .ok s) :
    ∀ chunks, ∃ outs, runMaps call mapP chunks =
      (.ok outs, chunks.map fun d => formatPrompt mapP d.page_content) := by
  intro chunks
  induction chunks with
  | nil => exact ⟨[], rfl⟩
  | cons d ds ih =>
    obtain ⟨s, hs⟩ := hok (formatPrompt mapP d.page_content)
    obtain ⟨outs, houts⟩ := ih
    refine ⟨s :: outs, ?_⟩
    rw [runMaps]
    rw [hs, houts]
    rfl

/-- The map-reduce branch of an attempt: at or above the token threshold, with
an oracle that answers every map call, the prompts issued are one map prompt
per chunk followed by exactly one combine prompt over the joined chunk
summaries. -/
theorem attemptFn_mapreduce (chunker : List Document → List Document)
    (docs2 : List Document) (call : List Char → Except (List Char) (List Char))
    (hge : ¬ estimate_tokens (List.intercalate [' '] (docs2.map Document.page_content)) < 6000)
    (outs : List (List Char))
    (hmaps : runMaps call (create_enhanced_prompts (detect_content_type docs2)).2.1
      (chunker docs2) =
      (.ok outs, (chunker docs2).map fun d =>
        formatPrompt (create_enhanced_prompts (detect_content_type docs2)).2.1 d.page_content)) :
    attemptFn chunker docs2 call =
      (validateResult (call (formatPrompt (create_enhanced_prompts (detect_content_type docs2)).2.2
          (joinDocs outs))),
        ((chunker docs2).map fun d =>
          formatPrompt (create_enhanced_prompts (detect_content_type docs2)).2.1 d.page_content)
          ++ [formatPrompt (create_enhanced_prompts (detect_content_type docs2)).2.2
            (joinDocs outs)]) := by
  simp only [attemptFn]
  rw [if_neg hge, hmaps]

/-- With `max_retries = 1` the prompts recorded by `summarize_chain` are
exactly the first attempt's prompts, whether it succeeds or fails. -/
theorem retryAux_one_prompts
    (run : Nat → Except (List Char) (List Char) × List (List Char)) :
    (retryAux run 1 1 0).2.2 = (run 0).2 := by
  rw [retryAux]
  norm_num
  cases h : (run 0).1 <;> simp [h]

/-- C1: for a document set that is non-empty after blank filtering and any
`max_retries`, `summarize` either returns a trimmed string of length at least
50, or raises the `RuntimeError` wrapping the last failure's message after
exactly `max_retries` attempts, each attempt being the identical
`attemptFn chunker (filteredDocs docs)` request against that attempt's oracle. -/
theorem summarize_retry_contract (chunker : List Document → List Document)
    (docs : List Document) (llm : Nat → List Char → Except (List Char) (List Char))
    (mr : ℤ) (hne : filteredDocs docs ≠ []) :
    (∃ s, (summarize_chain chunker docs llm mr).1 = .ok s ∧
      pyStrip s = s ∧ 50 ≤ s.length) ∨
    (∃ e, 1 ≤ mr ∧
      (summarize_chain chunker docs llm mr).1 = .error (.runtimeError (failWrap mr e)) ∧
      (summarize_chain chunker docs llm mr).2.1 = mr.toNat ∧
      (attemptFn chunker (filteredDocs docs) (llm (mr.toNat - 1))).1 = .error e) := by
  rw [summarize_chain_run chunker docs llm mr hne]
  by_cases hmr : 1 ≤ mr
  · have h0 : ((0 : Nat) : ℤ) + mr.toNat = mr := by omega
    have h1 : 1 ≤ mr.toNat := by omega
    rcases retryAux_contract (fun attempt => attemptFn chunker (filteredDocs docs) (llm attempt))
        mr mr.toNat 0 h0 h1 with ⟨a, s, ha, hr⟩ | ⟨e, he, hr, hn⟩
    · left
      obtain ⟨ht, hlen⟩ := attemptFn_ok chunker (filteredDocs docs) (llm a) s ha
      exact ⟨s, hr, ht, hlen⟩
    · right
      exact ⟨e, hmr, hr, hn, he⟩
  · left
    have h0 : mr.toNat = 0 := by omega
    rw [h0]
    refine ⟨fallbackText, by simp [retryAux], ?_, ?_⟩
    · decide
    · decide

/-- Concrete instance of the C1 contract. -/
def exampleDoc : Document := ⟨"hello world, a short document.".data, []⟩

/-- An LLM oracle that always answers with sixty `x` characters. -/
def oracleLong : Nat → List Char → Except (List Char) (List Char) :=
  fun _ _ => .ok (List.replicate 60 'x')

theorem summarize_retry_contract_witness :
    filteredDocs [exampleDoc] ≠ [] ∧
    ((∃ s, (summarize_chain id [exampleDoc] oracleLong 1).1 = .ok s ∧
      pyStrip s = s ∧ 50 ≤ s.length) ∨
    (∃ e, 1 ≤ (1 : ℤ) ∧
      (summarize_chain id [exampleDoc] oracleLong 1).1 =
        .error (.runtimeError (failWrap 1 e)) ∧
      (summarize_chain id [exampleDoc] oracleLong 1).2.1 = (1 : ℤ).toNat ∧
      (attemptFn id (filteredDocs [exampleDoc]) (oracleLong ((1 : ℤ).toNat - 1))).1 =
        .error e)) :=
  ⟨by decide, summarize_retry_contract id [exampleDoc] oracleLong 1 (by decide)⟩

/-- C6: `summarize_chain` raises a `ValueError`-kind error exactly when the
input is empty or every document is blank after trimming, and in that case it
executes zero attempts and issues no LLM prompt. -/
theorem summarize_valueError_iff (chunker : List Document → List Document)
    (docs : List Document) (llm : Nat → List Char → Except (List Char) (List Char))
    (mr : ℤ) :
    ((∃ m, (summarize_chain chunker docs llm mr).1 = .error (.valueError m)) ↔
      (docs = [] ∨ ∀ d ∈ docs, pyStrip d.page_content = [])) ∧
    ((docs = [] ∨ ∀ d ∈ docs, pyStrip d.page_content = []) →
      (summarize_chain chunker docs llm mr).2.1 = 0 ∧
      (summarize_chain chunker docs llm mr).2.2 = []) := by
  by_cases hd : docs = []
  · subst hd
    constructor
    · simp [summarize_chain]
    · intro _
      simp [summarize_chain]
  · by_cases hf : docs.filter (fun d => pyStrip d.page_content ≠ []) = []
    · have hall : ∀ d ∈ docs, pyStrip d.page_content = [] := by
        intro d hdm
        have := List.filter_eq_nil_iff.mp hf d hdm
        simpa using this
      have hres : summarize_chain chunker docs llm mr =
          (.error (.valueError "All documents are empty".data), 0, []) := by
        simp only [summarize_chain, if_neg hd, if_pos hf]
      constructor
      · rw [hres]
        constructor
        · intro _
          exact Or.inr hall
        · intro _
          exact ⟨"All documents are empty".data, rfl⟩
      · intro _
        rw [hres]
        exact ⟨rfl, rfl⟩
    · have hex : ¬ (docs = [] ∨ ∀ d ∈ docs, pyStrip d.page_content = []) := by
        push_neg
        refine ⟨hd, ?_⟩
        by_contra hc
        push_neg at hc
        apply hf
        exact List.filter_eq_nil_iff.mpr (by simpa using hc)
      constructor
      · simp only [summarize_chain, if_neg hd, if_neg hf]
        constructor
        · rintro ⟨m, hm⟩
          exact absurd hm (retryAux_no_valueError _ mr mr.toNat 0 m)
        · intro h
          exact absurd h hex
      · intro h
        exact absurd h hex

theorem summarize_valueError_iff_witness :
    (summarize_chain id [] oracleLong 3).2.1 = 0 ∧
    (summarize_chain id [] oracleLong 3).2.2 = [] :=
  (summarize_valueError_iff id [] oracleLong 3).2 (Or.inl rfl)

/-- C10 as stated is false: with `max_retries = 0` no attempt runs and no
error is raised, and the fixed fall-through string is returned — but its
trimmed length is exactly 50, not below 50. -/
theorem fallback_length_counterexample :
    (summarize_chain id [exampleDoc] oracleLong 0).1 = .ok fallbackText ∧
    (summarize_chain id [exampleDoc] oracleLong 0).2.1 = 0 ∧
    (summarize_chain id [exampleDoc] oracleLong 0).2.2 = [] ∧
    (pyStrip fallbackText).length = 50 ∧
    ¬ (pyStrip fallbackText).length < 50 := by
  refine ⟨?_, ?_, ?_, by decide, by decide⟩
  · rw [summarize_chain_run id [exampleDoc] oracleLong 0 (by decide)]
    rfl
  · rw [summarize_chain_run id [exampleDoc] oracleLong 0 (by decide)]
    rfl
  · rw [summarize_chain_run id [exampleDoc] oracleLong 0 (by decide)]
    rfl

/-- C10 amended: with non-positive `max_retries` and a document set that is
non-empty after blank filtering, `summarize_chain` performs no LLM call,
raises nothing, and returns the fall-through string, whose trimmed length is
exactly 50. -/
theorem summarize_nonpositive_retries (chunker : List Document → List Document)
    (docs : List Document) (llm : Nat → List Char → Except (List Char) (List Char))
    (mr : ℤ) (hmr : mr ≤ 0) (hne : filteredDocs docs ≠ []) :
    summarize_chain chunker docs llm mr = (.ok fallbackText, 0, []) ∧
    (pyStrip fallbackText).length = 50 := by
  rw [summarize_chain_run chunker docs llm mr hne]
  have h0 : mr.toNat = 0 := by omega
  rw [h0]
  exact ⟨rfl, by decide⟩

theorem summarize_nonpositive_retries_witness :
    summarize_chain id [exampleDoc] oracleLong 0 = (.ok fallbackText, 0, []) ∧
    (pyStrip fallbackText).length = 50 :=
  summarize_nonpositive_retries id [exampleDoc] oracleLong 0 (by decide) (by decide)

/-- Evaluation of a concrete successful run: the oracle answers sixty `x`
characters, which pass the 50-character gate and are returned unchanged. -/
theorem summarize_example_eval :
    (summarize_chain id [exampleDoc] oracleLong 3).1 = .ok (List.replicate 60 'x') := by
  rw [summarize_chain_run id [exampleDoc] oracleLong 3 (by decide)]
  have hlt : estimate_tokens (List.intercalate [' ']
      ((filteredDocs [exampleDoc]).map Document.page_content)) < 6000 := by
    rw [estimate_tokens_eq]
    decide
  have hx : (attemptFn id (filteredDocs [exampleDoc]) (oracleLong 0)).1 =
      .ok (List.replicate 60 'x') := by
    rw [attemptFn_stuff id (filteredDocs [exampleDoc]) (oracleLong 0) hlt]
    rfl
  rw [show ((3 : ℤ).toNat) = 2 + 1 from rfl]
  rw [retryAux]
  rw [if_pos (by norm_num : ((0 : ℕ) : ℤ) < 3)]
  simp only [hx]

/-- C2 as stated is false: `summarize_chain` returns an LLM output that
contains no structural marker (so `validate_summary_quality` rejects it),
because the retry loop's validation gate checks only emptiness and the
50-character bound. -/
theorem marker_not_enforced_counterexample :
    (summarize_chain id [exampleDoc] oracleLong 3).1 = .ok (List.replicate 60 'x') ∧
    (validate_summary_quality (List.replicate 60 'x')).1 = false ∧
    (structure_markers.any fun m =>
      containsSeq m ((List.replicate 60 'x').map Char.toLower)) = false :=
  ⟨summarize_example_eval, by decide, by decide⟩

/-- C2 amended: a summary returned by `summarize_chain` under a positive retry
budget is non-empty, trimmed and at least 50 characters long; the structural
marker is not checked by `summarize_chain` (it is only checked by the separate
`validate_summary_quality`, which no caller of the retry loop applies). -/
theorem summary_success_valid (chunker : List Document → List Document)
    (docs : List Document) (llm : Nat → List Char → Except (List Char) (List Char))
    (mr : ℤ) (hmr : 1 ≤ mr) (s : List Char)
    (h : (summarize_chain chunker docs llm mr).1 = .ok s) :
    pyStrip s = s ∧ 50 ≤ s.length ∧ s ≠ [] := by
  by_cases hd : docs = []
  · rw [summarize_chain, if_pos hd] at h
    simp at h
  · by_cases hf : filteredDocs docs = []
    · have hf2 : docs.filter (fun d => pyStrip d.page_content ≠ []) = [] := hf
      rw [summarize_chain, if_neg hd] at h
      simp only [hf2] at h
      simp at h
    · rw [summarize_chain_run chunker docs llm mr hf] at h
      rcases retryAux_contract
          (fun attempt => attemptFn chunker (filteredDocs docs) (llm attempt))
          mr mr.toNat 0 (by omega) (by omega) with ⟨a, s2, ha, hr⟩ | ⟨e, he, hr, hn⟩
      · rw [hr] at h
        have hs : s2 = s := by simpa using h
        subst hs
        obtain ⟨ht, hlen⟩ := attemptFn_ok chunker (filteredDocs docs) (llm a) s2 ha
        refine ⟨ht, hlen, ?_⟩
        intro hnil
        rw [hnil] at hlen
        simp at hlen
      · rw [hr] at h
        simp at h

theorem summary_success_valid_witness :
    pyStrip (List.replicate 60 'x') = List.replicate 60 'x' ∧
    50 ≤ (List.replicate 60 'x').length ∧ List.replicate 60 'x' ≠ [] :=
  summary_success_valid id [exampleDoc] oracleLong 3 (by norm_num)
    (List.replicate 60 'x') summarize_example_eval

/-- C4: a token estimate below 6000 makes the attempt single-pass — exactly
one LLM invocation, the stuff prompt formatted over the joined document
contents; otherwise the attempt is map-reduce — one map call per chunk of the
chunker's output, then exactly one combine call over the joined chunk
summaries.  (`max_retries = 1`, so the recorded prompt trace is the single
attempt's trace.) -/
theorem strategy_selection (chunker : List Document → List Document)
    (docs : List Document) (llm : Nat → List Char → Except (List Char) (List Char))
    (hne : filteredDocs docs ≠ []) :
    (estimate_tokens (List.intercalate [' ']
        ((filteredDocs docs).map Document.page_content)) < 6000 →
      (summarize_chain chunker docs llm 1).2.2 =
        [formatPrompt (create_enhanced_prompts (detect_content_type (filteredDocs docs))).1
          (joinDocs ((filteredDocs docs).map Document.page_content))]) ∧
    (¬ estimate_tokens (List.intercalate [' ']
        ((filteredDocs docs).map Document.page_content)) < 6000 →
      (∀ p, ∃ s, llm 0 p = .ok s) →
      ∃ outs,
        runMaps (llm 0)
          (create_enhanced_prompts (detect_content_type (filteredDocs docs))).2.1
          (chunker (filteredDocs docs)) =
          (.ok outs, (chunker (filteredDocs docs)).map fun d =>
            formatPrompt
              (create_enhanced_prompts (detect_content_type (filteredDocs docs))).2.1
              d.page_content) ∧
        (summarize_chain chunker docs llm 1).2.2 =
          ((chunker (filteredDocs docs)).map fun d =>
            formatPrompt
              (create_enhanced_prompts (detect_content_type (filteredDocs docs))).2.1
              d.page_content)
          ++ [formatPrompt
              (create_enhanced_prompts (detect_content_type (filteredDocs docs))).2.2
              (joinDocs outs)]) := by
  constructor
  · intro hlt
    rw [summarize_chain_run chunker docs llm 1 hne]
    rw [show ((1 : ℤ).toNat) = 1 from rfl]
    rw [retryAux_one_prompts]
    show (attemptFn chunker (filteredDocs docs) (llm 0)).2 = _
    rw [attemptFn_stuff chunker (filteredDocs docs) (llm 0) hlt]
  · intro hge hok
    obtain ⟨outs, houts⟩ := runMaps_ok (llm 0) _ hok (chunker (filteredDocs docs))
    refine ⟨outs, houts, ?_⟩
    rw [summarize_chain_run chunker docs llm 1 hne]
    rw [show ((1 : ℤ).toNat) = 1 from rfl, retryAux_one_prompts]
    show (attemptFn chunker (filteredDocs docs) (llm 0)).2 = _
    rw [attemptFn_mapreduce chunker (filteredDocs docs) (llm 0) hge outs houts]

theorem strategy_selection_witness :
    (summarize_chain id [exampleDoc] oracleLong 1).2.2 =
      [formatPrompt (create_enhanced_prompts (detect_content_type (filteredDocs [exampleDoc]))).1
        (joinDocs ((filteredDocs [exampleDoc]).map Document.page_content))] :=
  (strategy_selection id [exampleDoc] oracleLong (by decide)).1
    (by rw [estimate_tokens_eq]; decide)

/-- The lower-cased sample text the classifier scores
(generalUtils.py lines 83-84). -/
def classifierText (docs : List Document) : List Char :=
  (List.intercalate [' '] ((docs.take 3).map Document.page_content)).map Char.toLower

/-- Source `technical_score` (generalUtils.py line 99). -/
def technical_score (docs : List Document) : Nat :=
  countPresent technical_indicators (classifierText docs)

/-- Source `narrative_score` (generalUtils.py line 100). -/
def narrative_score (docs : List Document) : Nat :=
  countPresent narrative_indicators (classifierText docs)

/-- A document whose text repeats one technical keyword four times. -/
def repeatedKeywordDoc : Document :=
  ⟨"algorithm algorithm algorithm algorithm".data, []⟩

/-- C3 as stated is false: `indicator in text_lower` is a membership test, so
a text with four occurrences of `algorithm` scores 1 (below the threshold 3)
and is classified `general`, while the claim's occurrence-counting reading
would classify it `technical`. -/
theorem classifier_occurrences_counterexample :
    occCount "algorithm".data (classifierText [repeatedKeywordDoc]) = 4 ∧
    technical_score [repeatedKeywordDoc] = 1 ∧
    narrative_score [repeatedKeywordDoc] = 0 ∧
    detect_content_type [repeatedKeywordDoc] = ContentType.general ∧
    detect_content_type [repeatedKeywordDoc] ≠ ContentType.technical :=
  ⟨by decide, by decide, by decide, by decide, by decide⟩

/-- C3 amended: the classifier lower-cases the first three documents joined by
spaces and, for each keyword set, counts how many keywords occur at least once
as substrings; the label is `technical` iff that technical count beats the
narrative count and exceeds 3, `narrative` iff the narrative count beats the
technical count and exceeds 2, and `general` otherwise. -/
theorem detect_content_type_spec (docs : List Document) :
    (detect_content_type docs = ContentType.technical ↔
      technical_score docs > narrative_score docs ∧ technical_score docs > 3) ∧
    (detect_content_type docs = ContentType.narrative ↔
      narrative_score docs > technical_score docs ∧ narrative_score docs > 2) ∧
    (detect_content_type docs = ContentType.general ↔
      ¬ (technical_score docs > narrative_score docs ∧ technical_score docs > 3) ∧
      ¬ (narrative_score docs > technical_score docs ∧ narrative_score docs > 2)) := by
  by_cases hd : docs = []
  · subst hd
    decide
  · have hdet : detect_content_type docs =
        (if technical_score docs > narrative_score docs ∧ technical_score docs > 3 then
          ContentType.technical
        else if narrative_score docs > technical_score docs ∧ narrative_score docs > 2 then
          ContentType.narrative
        else ContentType.general) := by
      simp only [detect_content_type, if_neg hd]
      rfl
    rw [hdet]
    split_ifs with h1 h2
    · exact ⟨by simp [h1], by simp; omega, by simp; omega⟩
    · exact ⟨by simp; omega, by simp [h2], by simp; omega⟩
    · exact ⟨by simp; omega, by simp; omega, by simp; omega⟩

/-- C7: the token estimate is the floor of `(w * 1.3 + c / 3.5) / 2` (also for
empty text), equal to the integer `(91 w + 20 c) / 140`; it is non-negative,
and empty text yields 0. -/
theorem estimate_tokens_spec (t : List Char) :
    estimate_tokens t = ⌊(((wordCount t : ℚ) * 1.3 + (t.length : ℚ) / 3.5) / 2)⌋ ∧
    estimate_tokens t = ((91 * wordCount t + 20 * t.length) / 140 : ℕ) ∧
    0 ≤ estimate_tokens t ∧ estimate_tokens [] = 0 := by
  refine ⟨?_, estimate_tokens_eq t, ?_, rfl⟩
  · by_cases h : t = []
    · subst h
      rw [estimate_tokens]
      norm_num [wordCount, wcAux]
    · rw [estimate_tokens, if_neg h]
  · rw [estimate_tokens_eq t]
    exact Int.natCast_nonneg _

/-- C8: the token estimate is monotone non-decreasing under appending text. -/
theorem estimate_tokens_monotone (t s : List Char) :
    estimate_tokens t ≤ estimate_tokens (t ++ s) := by
  rw [estimate_tokens_eq, estimate_tokens_eq]
  have hw : wordCount t ≤ wordCount (t ++ s) := wcAux_append_le s t false
  have hbound : 91 * wordCount t + 20 * t.length
      ≤ 91 * wordCount (t ++ s) + 20 * (t ++ s).length := by
    simp only [List.length_append]
    omega
  exact_mod_cast Nat.div_le_div_right hbound

/-! ### Sanitizer fixpoint lemmas

Each rewrite pass of `clean_text_for_audio` is the identity on text that
contains none of its triggers; chaining them shows the whole pipeline fixes
already-clean text. -/

theorem subBold_id : ∀ l : List Char, '*' ∉ l → subBold l = l := by
  intro l
  induction l with
  | nil => intro _; simp [subBold]
  | cons c rest ih =>
    intro h
    have hc : ¬ (c = '*') := fun he => h (he ▸ List.mem_cons_self c rest)
    have hrest : '*' ∉ rest := fun hm => h (List.mem_cons_of_mem c hm)
    cases rest with
    | nil => simp [subBold]
    | cons c2 rest2 =>
      rw [subBold, if_neg (by simp [hc]), ih hrest]

theorem charSpan_none (stop : Char) :
    ∀ l : List Char, stop ∉ l → charSpan stop l = none := by
  intro l
  induction l with
  | nil => intro _; rfl
  | cons c rest ih =>
    intro h
    have hc : ¬ (c = stop) := fun he => h (by simp [he])
    have hrest : stop ∉ rest := fun hm => h (List.mem_cons_of_mem c hm)
    rw [charSpan]
    by_cases h1 : c = '\n'
    · rw [if_pos h1]
    · rw [if_neg h1, if_neg hc, ih hrest]
      rfl

theorem subSpan_id (delim : Char) : ∀ l : List Char, delim ∉ l → subSpan delim l = l := by
  intro l
  induction l with
  | nil => intro _; simp [subSpan]
  | cons c rest ih =>
    intro h
    have hc : ¬ (c = delim) := fun he => h (by simp [he])
    have hrest : delim ∉ rest := fun hm => h (List.mem_cons_of_mem c hm)
    rw [subSpan, if_neg hc, ih hrest]

theorem subHeaders_id : ∀ l : List Char, '#' ∉ l → subHeaders l = l := by
  intro l
  induction l with
  | nil => intro _; simp [subHeaders]
  | cons c rest ih =>
    intro h
    have hc : ¬ (c = '#') := fun he => h (by simp [he])
    have hrest : '#' ∉ rest := fun hm => h (List.mem_cons_of_mem c hm)
    rw [subHeaders, if_neg hc, ih hrest]

theorem subLinks_id : ∀ l : List Char, '[' ∉ l → subLinks l = l := by
  intro l
  induction l with
  | nil => intro _; simp [subLinks]
  | cons c rest ih =>
    intro h
    have hc : ¬ (c = '[') := fun he => h (by simp [he])
    have hrest : '[' ∉ rest := fun hm => h (List.mem_cons_of_mem c hm)
    rw [subLinks, if_neg hc, ih hrest]

theorem removeStray_id (l : List Char) (h : ∀ c ∈ l, strayMarkup c = false) :
    removeStray l = l := by
  rw [removeStray]
  rw [List.filter_eq_self]
  intro c hc
  simp [h c hc]

theorem numListMatch_none (l : List Char)
    (h : ∀ c, l.head? = some c → isPySpace c = false ∧ c.isDigit = false) :
    numListMatch l = none := by
  cases l with
  | nil => rfl
  | cons c rest =>
    obtain ⟨hsp, hdig⟩ := h c rfl
    have hdw : List.dropWhile isPySpace (c :: rest) = c :: rest := by
      rw [List.dropWhile_cons, if_neg (by simp [hsp])]
    have htw : List.takeWhile Char.isDigit (c :: rest) = [] := by
      rw [List.takeWhile_cons, if_neg (by simp [hdig])]
    simp only [numListMatch, hdw, htw]
    simp

theorem subNumScan_go_id : ∀ l : List Char, '\n' ∉ l → subNumScan false l = l := by
  intro l
  induction l with
  | nil => intro _; simp [subNumScan]
  | cons c rest ih =>
    intro h
    have hc : ¬ (c = '\n') := fun he => h (by simp [he])
    have hrest : '\n' ∉ rest := fun hm => h (List.mem_cons_of_mem c hm)
    rw [subNumScan, if_neg hc, ih hrest]

theorem subNumbered_id (l : List Char) (hnl : '\n' ∉ l)
    (h : ∀ c, l.head? = some c → isPySpace c = false ∧ c.isDigit = false) :
    subNumbered l = l := by
  rw [subNumbered, subNumScan, numListMatch_none l h]
  exact subNumScan_go_id l hnl

theorem bulListMatch_none (l : List Char)
    (h : ∀ c, l.head? = some c → isPySpace c = false ∧ ¬ (c = '•' ∨ c = '-')) :
    bulListMatch l = none := by
  cases l with
  | nil => rfl
  | cons c rest =>
    obtain ⟨hsp, hbul⟩ := h c rfl
    rw [bulListMatch]
    rw [List.dropWhile_cons, if_neg (by simp [hsp])]
    simp [hbul]

theorem subBulScan_go_id : ∀ l : List Char, '\n' ∉ l → subBulScan false l = l := by
  intro l
  induction l with
  | nil => intro _; simp [subBulScan]
  | cons c rest ih =>
    intro h
    have hc : ¬ (c = '\n') := fun he => h (by simp [he])
    have hrest : '\n' ∉ rest := fun hm => h (List.mem_cons_of_mem c hm)
    rw [subBulScan, if_neg hc, ih hrest]

theorem subBullets_id (l : List Char) (hnl : '\n' ∉ l)
    (h : ∀ c, l.head? = some c → isPySpace c = false ∧ ¬ (c = '•' ∨ c = '-')) :
    subBullets l = l := by
  rw [subBullets, subBulScan, bulListMatch_none l h]
  exact subBulScan_go_id l hnl

theorem addPeriodsGo_id : ∀ l : List Char, '\n' ∉ l →
    ∀ prev, addPeriodsGo prev l = l := by
  intro l
  induction l with
  | nil => intro _ prev; rfl
  | cons c rest ih =>
    intro h prev
    have hc : ¬ (c = '\n') := fun he => h (by simp [he])
    have hrest : '\n' ∉ rest := fun hm => h (List.mem_cons_of_mem c hm)
    simp only [addPeriodsGo, if_neg hc]
    rw [ih hrest]

theorem flattenNl_id : ∀ l : List Char, '\n' ∉ l → flattenNl l = l := by
  intro l
  induction l with
  | nil => intro _; simp [flattenNl]
  | cons c rest ih =>
    intro h
    have hc : ¬ (c = '\n') := fun he => h (by simp [he])
    have hrest : '\n' ∉ rest := fun hm => h (List.mem_cons_of_mem c hm)
    rw [flattenNl, if_neg hc, ih hrest]

/-- No two adjacent characters are both whitespace. -/
def noDoubleWs : List Char → Bool
  | [] => true
  | [_] => true
  | c1 :: c2 :: rest => !(isPySpace c1 && isPySpace c2) && noDoubleWs (c2 :: rest)

theorem collapseWs_id : ∀ l : List Char, noDoubleWs l = true → collapseWs l = l := by
  intro l
  induction l with
  | nil => intro _; simp [collapseWs]
  | cons c rest ih =>
    intro h
    cases rest with
    | nil => simp [collapseWs]
    | cons c2 rest2 =>
      rw [noDoubleWs] at h
      simp only [Bool.and_eq_true, Bool.not_eq_true'] at h
      have hcond : ¬ (isPySpace c = true ∧ isPySpace c2 = true) := by
        intro hx
        rw [hx.1, hx.2] at h
        simp at h
      rw [collapseWs, if_neg hcond, ih h.2]

/-- Lower-casing of a character list. -/
def lowerL (l : List Char) : List Char := l.map Char.toLower

theorem matchCI_beginsWith :
    ∀ (pat l r : List Char), matchCI pat l = some r →
      beginsWith (lowerL pat) (lowerL l) = true := by
  intro pat
  induction pat with
  | nil => intro l r _; rfl
  | cons p ps ih =>
    intro l r h
    cases l with
    | nil => simp [matchCI] at h
    | cons c cs =>
      simp only [matchCI] at h
      split_ifs at h with heq
      simp only [lowerL, List.map_cons, beginsWith]
      rw [Bool.and_eq_true]
      constructor
      · simp [heq]
      · exact ih cs r h

theorem subWordGo_id (p0 : Char) (ps repl : List Char) :
    ∀ l : List Char, containsSeq (lowerL (p0 :: ps)) (lowerL l) = false →
      ∀ b, subWordGo p0 ps repl b l = l := by
  intro l
  induction l with
  | nil => intro _ b; simp [subWordGo]
  | cons c rest ih =>
    intro h b
    have hsplit : (beginsWith (lowerL (p0 :: ps)) (Char.toLower c :: lowerL rest)
        || containsSeq (lowerL (p0 :: ps)) (lowerL rest)) = false := h
    simp only [Bool.or_eq_false_iff] at hsplit
    have hbegin := hsplit.1
    have hrest : containsSeq (lowerL (p0 :: ps)) (lowerL rest) = false := hsplit.2
    rw [subWordGo]
    by_cases hb : b = true
    · rw [if_pos hb, ih hrest]
    · rw [if_neg hb]
      cases hm : matchCI (p0 :: ps) (c :: rest) with
      | some r =>
        exfalso
        have hb2 : beginsWith (lowerL (p0 :: ps)) (c.toLower :: lowerL rest) = true := by
          simpa [lowerL] using matchCI_beginsWith (p0 :: ps) (c :: rest) r hm
        rw [hb2] at hbegin
        exact Bool.true_eq_false.mp hbegin
      | none => rw [ih hrest]

theorem subAbbrev_id (pat repl l : List Char)
    (h : containsSeq (lowerL pat) (lowerL l) = false) : subAbbrev pat repl l = l := by
  cases pat with
  | nil => rfl
  | cons p0 ps => exact subWordGo_id p0 ps repl l h false

theorem applyAbbreviations_id (l : List Char)
    (h : ∀ pr ∈ abbreviations, containsSeq (lowerL pr.1) (lowerL l) = false) :
    applyAbbreviations l = l := by
  rw [applyAbbreviations]
  have hgen : ∀ (abbrs : List (List Char × List Char)),
      (∀ pr ∈ abbrs, containsSeq (lowerL pr.1) (lowerL l) = false) →
      abbrs.foldl (fun acc pr => subAbbrev pr.1 pr.2 acc) l = l := by
    intro abbrs
    induction abbrs with
    | nil => intro _; rfl
    | cons a rest ih =>
      intro hh
      rw [List.foldl_cons, subAbbrev_id a.1 a.2 l (hh a (List.mem_cons_self a rest))]
      exact ih fun pr hm => hh pr (List.mem_cons_of_mem a hm)
  exact hgen abbreviations h

/-- The character classes whose absence makes every markup-rewriting pass of
the sanitizer the identity. -/
def bannedSanitizerChars : List Char :=
  ['*', '#', Char.ofNat 96, '[', '_', '>', '-', '•', '\n', '\t', '\r',
   Char.ofNat 11, Char.ofNat 12]

/-- Master fixpoint lemma: text without markup triggers, without doubled
whitespace, not starting with whitespace or a digit, not ending in whitespace,
and containing no expandable abbreviation is fixed by the whole sanitizer. -/
theorem clean_text_fix (l : List Char)
    (hchars : ∀ c ∈ l, c ∉ bannedSanitizerChars)
    (hws : noDoubleWs l = true)
    (hhead : ∀ c, l.head? = some c → isPySpace c = false ∧ c.isDigit = false)
    (hlast : ∀ c, l.getLast? = some c → isPySpace c = false)
    (habbrev : ∀ pr ∈ abbreviations, containsSeq (lowerL pr.1) (lowerL l) = false) :
    clean_text_for_audio l = l := by
  by_cases hl : l = []
  · subst hl; rfl
  have hmem : ∀ (c : Char), c ∈ bannedSanitizerChars → c ∉ l :=
    fun c hb hc => hchars c hc hb
  have hnl : '\n' ∉ l := hmem '\n' (by decide)
  have hheadb : ∀ c, l.head? = some c →
      isPySpace c = false ∧ ¬ (c = '•' ∨ c = '-') := by
    intro c hc
    refine ⟨(hhead c hc).1, ?_⟩
    rintro (he | he) <;> subst he
    · exact hmem '•' (by decide) (List.mem_of_mem_head? hc)
    · exact hmem '-' (by decide) (List.mem_of_mem_head? hc)
  rw [clean_text_for_audio, if_neg hl]
  rw [subBold_id l (hmem '*' (by decide))]
  rw [show subItalic l = l from subSpan_id '*' l (hmem '*' (by decide))]
  rw [subHeaders_id l (hmem '#' (by decide))]
  rw [show subCode l = l from subSpan_id (Char.ofNat 96) l (hmem (Char.ofNat 96) (by decide))]
  rw [subLinks_id l (hmem '[' (by decide))]
  rw [removeStray_id l ?hstray]
  case hstray =>
    intro c hc
    have h1 : ¬ (c = '#') := fun he => hmem '#' (by decide) (he ▸ hc)
    have h2 : ¬ (c = '*') := fun he => hmem '*' (by decide) (he ▸ hc)
    have h3 : ¬ (c = '_') := fun he => hmem '_' (by decide) (he ▸ hc)
    have h4 : ¬ (c = '>') := fun he => hmem '>' (by decide) (he ▸ hc)
    have h5 : ¬ (c = Char.ofNat 96) := fun he => hmem (Char.ofNat 96) (by decide) (he ▸ hc)
    have h6 : ¬ (c = '-') := fun he => hmem '-' (by decide) (he ▸ hc)
    have h7 : ¬ (c = '•') := fun he => hmem '•' (by decide) (he ▸ hc)
    simp [strayMarkup, h1, h2, h3, h4, h5, h6, h7]
  rw [subNumbered_id l hnl hhead]
  rw [subBullets_id l hnl hheadb]
  rw [show addPeriods l = l from addPeriodsGo_id l hnl none]
  rw [flattenNl_id l hnl]
  rw [collapseWs_id l hws]
  rw [applyAbbreviations_id l habbrev]
  exact pyStrip_fix l (fun c hc => (hhead c hc).1) hlast

theorem noDoubleWs_of_no_space :
    ∀ l : List Char, (∀ c ∈ l, isPySpace c = false) → noDoubleWs l = true := by
  intro l
  induction l with
  | nil => intro _; rfl
  | cons c rest ih =>
    intro h
    cases rest with
    | nil => rfl
    | cons c2 rest2 =>
      rw [noDoubleWs]
      rw [Bool.and_eq_true]
      constructor
      · rw [h c (by simp)]
        rfl
      · exact ih fun c0 hc0 => h c0 (List.mem_cons_of_mem c hc0)

theorem beginsWith_mem :
    ∀ (pat l : List Char), beginsWith pat l = true → ∀ c ∈ pat, c ∈ l := by
  intro pat
  induction pat with
  | nil => intro l _ c hc; simp at hc
  | cons p ps ih =>
    intro l h c hc
    cases l with
    | nil => simp [beginsWith] at h
    | cons x xs =>
      rw [beginsWith, Bool.and_eq_true] at h
      rcases List.mem_cons.mp hc with he | hm
      · have hpx : p = x := by simpa using h.1
        rw [List.mem_cons]
        exact Or.inl (he.trans hpx)
      · exact List.mem_cons_of_mem x (ih xs h.2 c hm)

theorem containsSeq_mem :
    ∀ (pat l : List Char), containsSeq pat l = true → ∀ c ∈ pat, c ∈ l := by
  intro pat l
  induction l with
  | nil =>
    intro h c hc
    exact absurd (beginsWith_mem pat [] h c hc) (by simp)
  | cons x xs ih =>
    intro h c hc
    rw [containsSeq, Bool.or_eq_true] at h
    rcases h with h | h
    · exact beginsWith_mem pat (x :: xs) h c hc
    · exact List.mem_cons_of_mem x (ih h c hc)

theorem containsSeq_replicate_false (pat : List Char) (c0 : Char) (n : Nat)
    (hc : ∃ p ∈ pat, p ≠ c0) : containsSeq pat (List.replicate n c0) = false := by
  by_contra h
  rw [Bool.not_eq_false] at h
  obtain ⟨p, hp, hne⟩ := hc
  exact hne (List.eq_of_mem_replicate (containsSeq_mem pat _ h p hp))

/-- The sanitizer fixes a block of repeated `'a'` characters. -/
theorem clean_replicate_a (n : Nat) :
    clean_text_for_audio (List.replicate n 'a') = List.replicate n 'a' := by
  have hmem : ∀ c ∈ List.replicate n 'a', c = 'a' :=
    fun c hc => List.eq_of_mem_replicate hc
  refine clean_text_fix _ ?_ ?_ ?_ ?_ ?_
  · intro c hc
    rw [hmem c hc]
    decide
  · exact noDoubleWs_of_no_space _ fun c hc => by rw [hmem c hc]; rfl
  · intro c hc
    rw [hmem c (List.mem_of_mem_head? hc)]
    exact ⟨rfl, rfl⟩
  · intro c hc
    rw [hmem c (List.mem_of_mem_getLast? hc)]
    rfl
  · intro pr hpr
    have hlow : lowerL (List.replicate n 'a') = List.replicate n 'a' := by
      rw [lowerL, List.map_replicate]
      rw [show 'a'.toLower = 'a' from rfl]
    rw [hlow]
    fin_cases hpr <;> exact containsSeq_replicate_false _ 'a' n (by decide)

/-- The sanitizer turns a star followed by repeated `'a'` characters into the
repeated characters alone: the star survives the markup-span passes (it is
unpaired) and is removed by the stray-character class. -/
theorem clean_star_replicate (n : Nat) :
    clean_text_for_audio ('*' :: List.replicate n 'a') = List.replicate n 'a' := by
  have hmem : ∀ c ∈ List.replicate n 'a', c = 'a' :=
    fun c hc => List.eq_of_mem_replicate hc
  have hstar : '*' ∉ List.replicate n 'a' := by
    intro hm
    exact absurd (hmem '*' hm) (by decide)
  have hsub1 : subBold ('*' :: List.replicate n 'a') = '*' :: List.replicate n 'a' := by
    cases n with
    | zero => simp [subBold]
    | succ m =>
      rw [List.replicate_succ]
      rw [subBold, if_neg (by decide), ← List.replicate_succ, subBold_id _ hstar]
  have hspan : ∀ delim : Char, delim ∉ List.replicate n 'a' →
      subSpan delim (delim :: List.replicate n 'a') = delim :: List.replicate n 'a' := by
    intro delim hd
    rw [subSpan, if_pos rfl, charSpan_none delim _ hd, subSpan_id delim _ hd]
  have hstray : removeStray ('*' :: List.replicate n 'a') = List.replicate n 'a' := by
    rw [removeStray, List.filter_cons]
    rw [if_neg (by decide)]
    rw [List.filter_eq_self.mpr]
    intro c hc
    rw [hmem c hc]
    decide
  have hhead : ∀ c : Char, (List.replicate n 'a').head? = some c →
      isPySpace c = false ∧ c.isDigit = false := by
    intro c hc
    rw [hmem c (List.mem_of_mem_head? hc)]
    exact ⟨rfl, rfl⟩
  have hheadb : ∀ c : Char, (List.replicate n 'a').head? = some c →
      isPySpace c = false ∧ ¬ (c = '•' ∨ c = '-') := by
    intro c hc
    rw [hmem c (List.mem_of_mem_head? hc)]
    exact ⟨rfl, by decide⟩
  have hnl : '\n' ∉ List.replicate n 'a' := by
    intro hm
    exact absurd (hmem '\n' hm) (by decide)
  have hstarcons : ∀ c : Char, c ≠ '*' → c ≠ 'a' → c ∉ '*' :: List.replicate n 'a' := by
    intro c h1 h2 hm
    rcases List.mem_cons.mp hm with he | hm2
    · exact h1 he
    · exact h2 (hmem c hm2)
  rw [clean_text_for_audio, if_neg (by simp)]
  rw [hsub1]
  rw [show subItalic ('*' :: List.replicate n 'a') = '*' :: List.replicate n 'a' from
    hspan '*' hstar]
  rw [subHeaders_id _ (hstarcons '#' (by decide) (by decide))]
  rw [show subCode ('*' :: List.replicate n 'a') = '*' :: List.replicate n 'a' from
    subSpan_id _ _ (hstarcons (Char.ofNat 96) (by decide) (by decide))]
  rw [subLinks_id _ (hstarcons '[' (by decide) (by decide))]
  rw [hstray]
  rw [subNumbered_id _ hnl hhead]
  rw [subBullets_id _ hnl hheadb]
  rw [show addPeriods (List.replicate n 'a') = List.replicate n 'a' from
    addPeriodsGo_id _ hnl none]
  rw [flattenNl_id _ hnl]
  rw [collapseWs_id _ (noDoubleWs_of_no_space _ fun c hc => by rw [hmem c hc]; rfl)]
  rw [applyAbbreviations_id]
  · exact pyStrip_fix _ (fun c hc => (hhead c hc).1)
      (fun c hc => by rw [hmem c (List.mem_of_mem_getLast? hc)]; rfl)
  · intro pr hpr
    have hlow : lowerL (List.replicate n 'a') = List.replicate n 'a' := by
      rw [lowerL, List.map_replicate]
      rw [show 'a'.toLower = 'a' from rfl]
    rw [hlow]
    fin_cases hpr <;> exact containsSeq_replicate_false _ 'a' n (by decide)

/-- C5 as stated is false: this input has 5001 characters (above the ≈5000
ceiling), but its sanitized text has exactly 5000 characters, so the narration
text is not truncated: it is 5000 characters long — more than the bounded
length 4800 plus the 37-character continuation notice — and no notice is
appended. -/
theorem sanitizer_truncation_counterexample :
    ('*' :: List.replicate 5000 'a').length = 5001 ∧
    generate_audio_text ('*' :: List.replicate 5000 'a') = List.replicate 5000 'a' ∧
    (generate_audio_text ('*' :: List.replicate 5000 'a')).length = 5000 ∧
    4800 + continuation_notice.length <
      (generate_audio_text ('*' :: List.replicate 5000 'a')).length := by
  have hga : generate_audio_text ('*' :: List.replicate 5000 'a') =
      List.replicate 5000 'a' := by
    simp only [generate_audio_text, clean_star_replicate 5000]
    rw [if_neg (by rw [List.length_replicate]; omega)]
  refine ⟨by rw [List.length_cons, List.length_replicate], hga, ?_, ?_⟩
  · rw [hga, List.length_replicate]
  · rw [hga, List.length_replicate]
    decide

/-- C5 amended: the truncation inside `generate_audio` is keyed on the length
of the sanitized text, not of the raw input.  If the cleaned text exceeds 5000
characters, the narration text is its first 4800 characters followed by the
37-character continuation notice, 4837 characters in total; otherwise the
cleaned text passes through untruncated. -/
theorem sanitizer_truncation_spec (t : List Char) :
    (5000 < (clean_text_for_audio t).length →
      generate_audio_text t = (clean_text_for_audio t).take 4800 ++ continuation_notice ∧
      (generate_audio_text t).length = 4837) ∧
    ((clean_text_for_audio t).length ≤ 5000 →
      generate_audio_text t = clean_text_for_audio t) := by
  constructor
  · intro h
    have heq : generate_audio_text t =
        (clean_text_for_audio t).take 4800 ++ continuation_notice := by
      simp only [generate_audio_text]
      rw [if_pos (by omega)]
    refine ⟨heq, ?_⟩
    rw [heq, List.length_append, List.length_take]
    have hn : continuation_notice.length = 37 := rfl
    omega
  · intro h
    simp only [generate_audio_text]
    rw [if_neg (by omega)]

theorem sanitizer_truncation_spec_witness :
    generate_audio_text (List.replicate 5001 'a') =
      (clean_text_for_audio (List.replicate 5001 'a')).take 4800 ++ continuation_notice ∧
    (generate_audio_text (List.replicate 5001 'a')).length = 4837 :=
  (sanitizer_truncation_spec (List.replicate 5001 'a')).1
    (by rw [clean_replicate_a 5001, List.length_replicate]; omega)

/-- Already-clean plain text, as the idempotence property reads it: no markup
or list-prefix characters, no newlines or tabs, no doubled whitespace, no
leading whitespace or digit, ending in sentence punctuation, and no
expandable abbreviation present. -/
def plainCleanText (l : List Char) : Bool :=
  l.all (fun c => !(bannedSanitizerChars.contains c)) &&
  noDoubleWs l &&
  (match l.head? with
   | some c => !(isPySpace c) && !(c.isDigit)
   | none => true) &&
  (match l.getLast? with
   | some c => c == '.' || c == '!' || c == '?'
   | none => false) &&
  abbreviations.all (fun pr => !(containsSeq (lowerL pr.1) (lowerL l)))

/-- C9: the sanitizer is idempotent on already-clean plain text (it fixes such
text, so a second pass changes nothing). -/
theorem sanitizer_idempotent (l : List Char) (h : plainCleanText l = true) :
    clean_text_for_audio (clean_text_for_audio l) = clean_text_for_audio l := by
  rw [plainCleanText] at h
  simp only [Bool.and_eq_true] at h
  obtain ⟨⟨⟨⟨hA, hB⟩, hC⟩, hD⟩, hE⟩ := h
  have hfix : clean_text_for_audio l = l := by
    refine clean_text_fix l ?_ hB ?_ ?_ ?_
    · intro c hc
      have := List.all_eq_true.mp hA c hc
      simpa using this
    · intro c hc
      rw [hc] at hC
      simp only [Bool.and_eq_true, Bool.not_eq_true'] at hC
      exact hC
    · intro c hc
      rw [hc] at hD
      simp only [Bool.or_eq_true, beq_iff_eq] at hD
      rcases hD with (h1 | h1) | h1 <;> rw [h1] <;> rfl
    · intro pr hpr
      have := List.all_eq_true.mp hE pr hpr
      simpa using this
  rw [hfix]
  exact hfix

theorem sanitizer_idempotent_witness :
    plainCleanText "Hello there friend.".data = true ∧
    clean_text_for_audio (clean_text_for_audio "Hello there friend.".data) =
      clean_text_for_audio "Hello there friend.".data :=
  ⟨by decide, sanitizer_idempotent "Hello there friend.".data (by decide)⟩

theorem detect_content_type_spec_witness :
    detect_content_type [exampleDoc] = ContentType.general :=
  ((detect_content_type_spec [exampleDoc]).2.2).mpr ⟨by decide, by decide⟩

end SummifyX
